import Mathlib

/-!
Verification of the siemens-acronyms-mcp service against its design
specification.  The definitions below are a shallow embedding of the Python
sources:

* `AcronymsService.load_data`, `AcronymsService.search`, `AcronymsService.get_all`
  (src/src/acronyms_service.py),
* `MCPAuthMiddleware.dispatch` (src/src/auth_middleware.py),
* `validate_api_key`, `mcp_auth_middleware`, `mcp_endpoint` (src/src/main.py).

Python dicts holding glossary entries are modelled as association lists of
string keys to JSON values; the mutable singleton service is modelled by
explicit state passing (`ServiceState`), and the filesystem the service reads
is an explicit parameter (`FS`).  The rapidfuzz string-similarity scorer
(`fuzz.WRatio`) is external library code, not part of this repository; it is
modelled as an abstract scorer parameter whose documented 0-100 range appears
as a hypothesis where needed.
-/

namespace Acronyms

/-- A JSON scalar stored in a glossary entry: a string or a number.
Scores injected by `search` are numbers; `term`/`full_name` are strings. -/
inductive JVal where
  | s (v : String)
  | n (v : ℚ)
deriving DecidableEq, Repr

/-- Python str() of a stored value, as used in the f-string building the
searchable text. -/
def JVal.pyStr : JVal → String
  | .s v => v
  | .n v => toString v

/-- A glossary entry: a Python dict modelled as an association list
(first binding of a key wins on lookup; update replaces in place). -/
abbrev Entry : Type := List (String × JVal)

/-- Python `item.get(k)`: first binding of key `k`, if any. -/
def dictGet (e : Entry) (k : String) : Option JVal :=
  (List.find? (fun p => p.1 == k) e).map (fun p => p.2)

/-- Python `k in item`. -/
def dictHasKey (e : Entry) (k : String) : Bool :=
  List.any e (fun p => p.1 == k)

/-- Python `item[k] = v` on a dict: replace the binding in place if the key
is present, otherwise append a new binding at the end. -/
def dictSet (e : Entry) (k : String) (v : JVal) : Entry :=
  if dictHasKey e k then
    List.map (fun p => if p.1 == k then (k, v) else p) e
  else
    e ++ [(k, v)]

/-- The searchable string of an entry, per acronyms_service.py lines 113-115:
the value of the "term" field (defaulting to the empty string), then, when a
"full_name" field is present, a space and the str() of that field. -/
def searchStr (item : Entry) : String :=
  let s0 := match dictGet item "term" with
    | some v => v.pyStr
    | none => ""
  if dictHasKey item "full_name" then
    s0 ++ " " ++ (match dictGet item "full_name" with
      | some v => v.pyStr
      | none => "")
  else s0

/-! ### The glossary store state and `load_data` -/

/-- The mutable fields of the `AcronymsService` singleton:
`self.data` and `self.last_mtime`. -/
structure ServiceState where
  data : List Entry
  last_mtime : Option ℚ
deriving DecidableEq

/-- What `json.load` yields on the source file, as far as
acronyms_service.py lines 65-74 inspect it:
a decode error, a dict carrying the list under the "acronyms" key,
a bare list, or some other valid JSON value (invalid format). -/
inductive FileContent where
  | malformed
  | jdictAcronyms (l : List Entry)
  | jlist (l : List Entry)
  | jother
deriving DecidableEq

/-- The state of the source file: `none` when the file does not exist,
otherwise its modification time and content. -/
def FS : Type := Option (ℚ × FileContent)

/-- Shallow embedding of `AcronymsService.load_data`
(acronyms_service.py lines 47-84).  Missing file: data cleared, early return
(last_mtime untouched).  Unchanged mtime: pure no-op.  Otherwise parse:
dict-with-"acronyms" or bare list install the entries; other valid JSON logs
an error and clears data; all three then record the new mtime (line 76).
A `json.JSONDecodeError` jumps to the handler at line 79, which clears data
and leaves last_mtime untouched; the handlers make the function total. -/
def load_data (s : ServiceState) (fs : FS) : ServiceState :=
  match fs with
  | none => { s with data := [] }
  | some (mtime, content) =>
    if s.last_mtime = some mtime then s
    else
      match content with
      | .jdictAcronyms l => { data := l, last_mtime := some mtime }
      | .jlist l => { data := l, last_mtime := some mtime }
      | .jother => { data := [], last_mtime := some mtime }
      | .malformed => { s with data := [] }

/-! ### `search` and `get_all` -/

/-- Python `s.lower()`, at the level of the character list. -/
def lowerChars (s : String) : List Char :=
  s.data.map Char.toLower

/-- Case-insensitive containment, Python `query.lower() in match_str.lower()`. -/
def containsCI (needle hay : String) : Bool :=
  decide (lowerChars needle <:+: lowerChars hay)

/-- Stable sort, descending by a rational key: each element is inserted
before the first strictly smaller key, so equal keys keep their original
relative order.  This is the (unique) behavior of Python's stable
`list.sort(key=..., reverse=True)`, and the order in which
`rapidfuzz.process.extract` returns its matches. -/
def insertD {α : Type} (key : α → ℚ) (a : α) : List α → List α
  | [] => [a]
  | b :: bs => if key b ≤ key a then a :: b :: bs else b :: insertD key a bs

/-- See `insertD`: insertion sort, stable, descending by key. -/
def sortD {α : Type} (key : α → ℚ) : List α → List α
  | [] => []
  | x :: xs => insertD key x (sortD key xs)

/-- acronyms_service.py line 111-116: pair every entry with its searchable
string. -/
def searchableItems (data : List Entry) : List (String × Entry) :=
  List.map (fun item => (searchStr item, item)) data

/-- Model of the library call `rapidfuzz.process.extract(query, choices,
scorer=fuzz.WRatio, limit=limit)` (acronyms_service.py lines 119-124):
scores every choice against the query and returns the `limit` best triples
(match string, score, index of the choice), sorted by score descending;
ties keep the original choice order (the extraction is stable). -/
def extractModel (scorer : String → String → ℚ) (query : String)
    (choices : List String) (limit : Nat) : List (String × ℚ × Nat) :=
  let scored := List.map (fun p => (p.2, scorer query p.2, p.1)) choices.enum
  (sortD (fun m => m.2.1) scored).take limit

/-- Attach the injected score to a copy of the entry
(`item = ...copy(); item["score"] = score`). -/
def withScore (item : Entry) (score : ℚ) : Entry :=
  dictSet item "score" (JVal.n score)

/-- The score a result entry carries, used as the sort key
(`key=lambda x: x["score"]`). -/
def entryScore (e : Entry) : ℚ :=
  match dictGet e "score" with
  | some (.n q) => q
  | _ => 0

/-- The body of the loop at acronyms_service.py lines 126-135, for one
extracted match (match string, score, index): keep the match if its score
reaches `threshold`, or else if the query is case-insensitively contained in
the match string and the score reaches 60; a kept entry is a copy with the
score injected. -/
def selectMatch (items : List (String × Entry)) (query : String)
    (threshold : ℚ) (m : String × ℚ × Nat) : Option Entry :=
  if threshold ≤ m.2.1 then
    some (withScore (items.getD m.2.2 ("", [])).2 m.2.1)
  else if containsCI query m.1 && decide ((60 : ℚ) ≤ m.2.1) then
    some (withScore (items.getD m.2.2 ("", [])).2 m.2.1)
  else none

/-- The `results` list built by the loop at acronyms_service.py lines
126-135: walk the extracted matches in order, keeping those `selectMatch`
accepts. -/
def searchCandidates (scorer : String → String → ℚ) (data : List Entry)
    (query : String) (threshold : ℚ) (limit : Nat) : List Entry :=
  let items := searchableItems data
  (extractModel scorer query (List.map (fun p => p.1) items) limit).filterMap
    (selectMatch items query threshold)

/-- The pure part of `AcronymsService.search` (acronyms_service.py lines
101-140), operating on the post-reload data: guard empty data and empty
query, extract and select candidates, stable-sort by score descending
(`results.sort(key=..., reverse=True)`, Python sorts are stable), truncate
to `limit`. -/
def searchPure (scorer : String → String → ℚ) (data : List Entry)
    (query : String) (threshold : ℚ) (limit : Nat) : List Entry :=
  if data.isEmpty then []
  else if query = "" then []
  else
    (sortD entryScore (searchCandidates scorer data query threshold limit)).take limit

/-- `AcronymsService.search` including its initial `await self.load_data()`
(line 99): returns the results and the post-call service state. -/
def searchFull (s : ServiceState) (fs : FS) (scorer : String → String → ℚ)
    (query : String) (threshold : ℚ) (limit : Nat) :
    List Entry × ServiceState :=
  let s1 := load_data s fs
  (searchPure scorer s1.data query threshold limit, s1)

/-- `AcronymsService.get_all` (acronyms_service.py lines 142-145): reload,
then return a copy of the entries list and the post-call state. -/
def get_all (s : ServiceState) (fs : FS) : List Entry × ServiceState :=
  let s1 := load_data s fs
  (s1.data, s1)

/-- Modelled from the spec (section 4.1, steps 1-6): score every entry,
select the union of the two rules (score at least `threshold`, or
case-insensitive containment with score at least 60), attach the score to a
copy of each selected entry, stable-sort descending, truncate to `limit`.
This is the specification-side definition used to compare against
`searchPure`. -/
def specSearch (scorer : String → String → ℚ) (data : List Entry)
    (query : String) (threshold : ℚ) (limit : Nat) : List Entry :=
  if data.isEmpty then []
  else if query = "" then []
  else
    let scored := List.map
      (fun item => (searchStr item, scorer query (searchStr item), item)) data
    let selected := scored.filter
      (fun t => decide (threshold ≤ t.2.1) ||
        (containsCI query t.1 && decide ((60 : ℚ) ≤ t.2.1)))
    let withScores := List.map (fun t => withScore t.2.2 t.2.1) selected
    (sortD entryScore withScores).take limit

/-! ### The access gate: the two authentication middlewares -/

/-- A parsed request body, as far as the middleware and the protocol endpoint
inspect it: `body.get("method")`, `body.get("params", {}).get("name")`,
`body.get("params", {}).get("arguments", {}).get("query", "")`,
`body.get("params", {}).get("protocolVersion", ...)`, `body.get("id")`. -/
structure MCPBody where
  method : Option String
  paramsName : Option String
  paramsQuery : Option String
  protocolVersion : Option String
  id : Option JVal
deriving DecidableEq

/-- An inbound HTTP request: its path, its headers, and its body as parsed
by `json.loads` (`none` when parsing raises, which the middleware catches). -/
structure HttpRequest where
  path : String
  headers : List (String × String)
  parsedBody : Option MCPBody

/-- Python `path.startswith("/mcp")`. -/
def startsWithMCP (path : String) : Bool :=
  List.isPrefixOf "/mcp".data path.data

/-- Starlette header lookup: header names are matched case-insensitively. -/
def headerGet (hs : List (String × String)) (name : String) : Option String :=
  (List.find? (fun p => lowerChars p.1 == lowerChars name) hs).map (fun p => p.2)

/-- Python truthiness of an optional header value: `None` and the empty
string are falsy. -/
def pyFalsy : Option String → Bool
  | none => true
  | some s => s == ""

/-- Python `a or b` on two optional header values. -/
def pyOr (a b : Option String) : Option String :=
  if pyFalsy a then b else a

/-- Python `s.split(",")` at the level of the character list:
splitting the empty string yields one empty piece. -/
def splitComma : List Char → List (List Char)
  | [] => [[]]
  | c :: cs =>
    match splitComma cs with
    | [] => [[c]]
    | g :: gs => if c = ',' then [] :: g :: gs else (c :: g) :: gs

/-- Python `s.strip()`: drop leading and trailing whitespace. -/
def trimChars (l : List Char) : List Char :=
  ((l.dropWhile Char.isWhitespace).reverse.dropWhile Char.isWhitespace).reverse

/-- Parse a comma-separated key list from an environment value:
`[k.strip() for k in s.split(",") if k.strip()]`. -/
def parseKeys (s : String) : List String :=
  ((splitComma s.data).map (fun g => String.mk (trimChars g))).filter
    (fun k => k ≠ "")

/-- What a middleware does with a request: forward it to the next handler,
or short-circuit with a JSON denial response.  `extraHeaders` are the
response headers the middleware adds explicitly (beyond content-type). -/
inductive GateOutcome where
  | forwarded
  | denied (status : Nat) (error : String) (extraHeaders : List (String × String))
deriving DecidableEq

/-- Shallow embedding of `MCPAuthMiddleware.dispatch`
(auth_middleware.py lines 26-63).  `mcpApiKeys` is the `MCP_API_KEYS`
environment value (empty string when unset). -/
def MCPAuthMiddleware_dispatch (mcpApiKeys : String) (req : HttpRequest) :
    GateOutcome :=
  if startsWithMCP req.path then
    if mcpApiKeys = "" then .forwarded
    else
      let valid_keys := parseKeys mcpApiKeys
      let api_key := pyOr (headerGet req.headers "X-API-Key")
        (headerGet req.headers "x-api-key")
      if pyFalsy api_key then
        .denied 403 "API key required for MCP access" []
      else
        match api_key with
        | some k =>
          if k ∈ valid_keys then .forwarded
          else .denied 403 "Invalid API key" []
        | none => .denied 403 "API key required for MCP access" []
  else .forwarded

/-- Shallow embedding of `validate_api_key` (main.py lines 167-179).
`glossaryApiKeys` is the `GLOSSARY_API_KEYS` environment value. -/
def validate_api_key (glossaryApiKeys : String) (req : HttpRequest) :
    Option String :=
  let api_key := headerGet req.headers "X-API-Key"
  if pyFalsy api_key then none
  else
    let allowed_keys := parseKeys glossaryApiKeys
    match api_key with
    | some k => if k ∈ allowed_keys then some k else none
    | none => none

/-- Shallow embedding of the middleware actually registered on the app,
`mcp_auth_middleware` (main.py lines 183-213): on the protected path it
first lets `tools/call` of `get_health` through with no credential check
(body parse failures fall through to normal auth), then denies with
HTTP 401 and a `WWW-Authenticate: X-API-Key` header unless
`validate_api_key` accepts the presented key. -/
def mcp_auth_middleware (glossaryApiKeys : String) (req : HttpRequest) :
    GateOutcome :=
  if startsWithMCP req.path then
    let healthBypass :=
      match req.parsedBody with
      | some b => decide (b.method = some "tools/call") &&
          decide (b.paramsName = some "get_health")
      | none => false
    if healthBypass then .forwarded
    else
      match validate_api_key glossaryApiKeys req with
      | none => .denied 401 "Invalid or missing API key"
          [("WWW-Authenticate", "X-API-Key")]
      | some _ => .forwarded
  else .forwarded

/-! ### The protocol endpoint -/

/-- The JSON payload shapes `mcp_endpoint` can answer with
(main.py lines 216-336), carried structurally rather than serialized. -/
inductive MCPResponse where
  | initResult (protocolVersion : String) (id : Option JVal)
  | emptyResult (id : Option JVal)
  | emptyObj
  | toolsList (id : Option JVal)
  | searchResult (results : List Entry) (query : String) (count : Nat) (id : Option JVal)
  | healthResult (id : Option JVal)
  | rpcError (code : Int) (message : String) (id : Option JVal)
deriving DecidableEq

/-- Python str() of the optional method in the f-string
`f"Method not found: {method}"`: `None` prints as "None". -/
def methodText : Option String → String
  | some m => m
  | none => "None"

/-- Shallow embedding of the `/mcp` handler `mcp_endpoint`
(main.py lines 217-336): the if/elif chain over the request method, with the
method-not-found fall-through at lines 334-336.  The search tool invokes
`AcronymsService.search` with its default threshold 80 and limit 10. -/
def mcp_endpoint (st : ServiceState) (fs : FS)
    (scorer : String → String → ℚ) (body : MCPBody) : MCPResponse :=
  if body.method = some "initialize" then
    .initResult (body.protocolVersion.getD "2025-06-18") body.id
  else if body.method = some "initialized" ∨
      body.method = some "notifications/initialized" then
    match body.id with
    | some i => .emptyResult (some i)
    | none => .emptyObj
  else if body.method = some "tools/list" then
    .toolsList body.id
  else if body.method = some "tools/call" then
    if body.paramsName = some "search_acronyms" then
      let query := body.paramsQuery.getD ""
      let results := (searchFull st fs scorer query 80 10).1
      .searchResult results query results.length body.id
    else if body.paramsName = some "get_health" then
      .healthResult body.id
    else
      .rpcError (-32601) ("Method not found: " ++ methodText body.method) body.id
  else if body.method = some "ping" then
    .emptyResult body.id
  else
    .rpcError (-32601) ("Method not found: " ++ methodText body.method) body.id

/-! ### Concrete instances used by witnesses and counterexamples -/

/-- A concrete glossary entry. -/
def entryA : Entry := [("term", JVal.s "A"), ("full_name", JVal.s "Alpha")]

/-- A second concrete glossary entry; its searchable string is "B Beta". -/
def entryB : Entry := [("term", JVal.s "B"), ("full_name", JVal.s "Beta")]

/-- A concrete scorer within the documented 0-100 range: 65 for the choice
"B Beta", 70 for everything else. -/
def scorerCx : String → String → ℚ := fun _ c => if c = "B Beta" then 65 else 70

/-- A constant scorer within the documented 0-100 range. -/
def scorer75 : String → String → ℚ := fun _ _ => 75

/-- A tools/list request body. -/
def bodyToolsList : MCPBody := ⟨some "tools/list", none, none, none, none⟩

/-- A get_health tool-call request body. -/
def bodyHealthCall : MCPBody :=
  ⟨some "tools/call", some "get_health", none, none, some (JVal.n 3)⟩

/-- A protected-path request presenting no credential header. -/
def reqNoKey : HttpRequest := ⟨"/mcp", [], some bodyToolsList⟩

/-- A protected-path request whose body is a get_health tool call, with no
credential header. -/
def reqHealthCall : HttpRequest := ⟨"/mcp", [], some bodyHealthCall⟩

/-! ### Helper lemmas: the stable descending sort -/

theorem insertD_perm {α : Type} (key : α → ℚ) (a : α) :
    ∀ l : List α, List.Perm (insertD key a l) (a :: l)
  | [] => by simp [insertD]
  | b :: bs => by
    simp only [insertD]
    split
    · exact List.Perm.refl _
    · exact ((insertD_perm key a bs).cons b).trans (List.Perm.swap a b bs)

theorem sortD_perm {α : Type} (key : α → ℚ) :
    ∀ l : List α, List.Perm (sortD key l) l
  | [] => List.Perm.refl _
  | x :: xs =>
    (insertD_perm key x (sortD key xs)).trans ((sortD_perm key xs).cons x)

theorem mem_sortD {α : Type} {key : α → ℚ} {a : α} {l : List α} :
    a ∈ sortD key l ↔ a ∈ l :=
  (sortD_perm key l).mem_iff

theorem length_sortD {α : Type} (key : α → ℚ) (l : List α) :
    (sortD key l).length = l.length :=
  (sortD_perm key l).length_eq

theorem pairwise_insertD {α : Type} {key : α → ℚ} {a : α} : ∀ {l : List α},
    l.Pairwise (fun x y => key y ≤ key x) →
    (insertD key a l).Pairwise (fun x y => key y ≤ key x)
  | [], _ => by simp [insertD]
  | b :: bs, h => by
    rw [List.pairwise_cons] at h
    obtain ⟨hb, hbs⟩ := h
    simp only [insertD]
    split
    case isTrue hle =>
      refine List.pairwise_cons.2 ⟨?_, List.pairwise_cons.2 ⟨hb, hbs⟩⟩
      intro y hy
      rcases List.mem_cons.1 hy with rfl | hy
      · exact hle
      · exact le_trans (hb y hy) hle
    case isFalse hlt =>
      refine List.pairwise_cons.2 ⟨?_, pairwise_insertD hbs⟩
      intro y hy
      rcases List.mem_cons.1 ((insertD_perm key a bs).mem_iff.1 hy) with rfl | hy
      · exact (not_le.1 hlt).le
      · exact hb y hy

theorem pairwise_sortD {α : Type} (key : α → ℚ) :
    ∀ l : List α, (sortD key l).Pairwise (fun x y => key y ≤ key x)
  | [] => List.Pairwise.nil
  | _ :: xs => pairwise_insertD (pairwise_sortD key xs)

theorem sortD_of_pairwise {α : Type} {key : α → ℚ} :
    ∀ {l : List α}, l.Pairwise (fun x y => key y ≤ key x) → sortD key l = l
  | [], _ => rfl
  | x :: xs, h => by
    rw [List.pairwise_cons] at h
    obtain ⟨hx, hxs⟩ := h
    simp only [sortD, sortD_of_pairwise hxs]
    cases xs with
    | nil => simp [insertD]
    | cons y ys =>
      simp only [insertD]
      rw [if_pos (hx y (List.mem_cons_self y ys))]

/-! ### Helper lemmas: dict operations and scores -/

theorem find?_map_update (k : String) (v : JVal) : ∀ e : Entry,
    List.find? (fun q => q.1 == k)
      (List.map (fun p => if p.1 == k then (k, v) else p) e) =
    if List.any e (fun p => p.1 == k) then some (k, v) else none := by
  intro e
  induction e with
  | nil => simp
  | cons p ps ih =>
    simp only [List.map_cons, List.any_cons]
    by_cases hp : (p.1 == k) = true
    · rw [if_pos hp, List.find?_cons_of_pos]
      · rw [if_pos]
        simp [hp]
      · simp
    · rw [if_neg hp, List.find?_cons_of_neg, ih]
      · rw [Bool.not_eq_true] at hp
        simp only [hp, Bool.false_or]
      · simpa using hp

theorem dictGet_dictSet (e : Entry) (k : String) (v : JVal) :
    dictGet (dictSet e k v) k = some v := by
  unfold dictSet dictHasKey
  split
  case isTrue h =>
    unfold dictGet
    rw [find?_map_update, if_pos h]
    rfl
  case isFalse h =>
    unfold dictGet
    rw [List.find?_append]
    have hnone : List.find? (fun q => q.1 == k) e = none := by
      rw [List.find?_eq_none]
      intro x hx hxk
      exact h (List.any_eq_true.2 ⟨x, hx, hxk⟩)
    simp [hnone, List.find?_cons]

theorem entryScore_withScore (e : Entry) (s : ℚ) :
    entryScore (withScore e s) = s := by
  unfold entryScore withScore
  rw [dictGet_dictSet]

theorem dictGet_score_withScore (e : Entry) (s : ℚ) :
    dictGet (withScore e s) "score" = some (JVal.n s) := by
  unfold withScore
  exact dictGet_dictSet e "score" (JVal.n s)

/-! ### Helper lemmas: extraction and candidate selection -/

theorem pairwise_extractModel (scorer : String → String → ℚ) (q : String)
    (choices : List String) (limit : Nat) :
    (extractModel scorer q choices limit).Pairwise
      (fun a b => b.2.1 ≤ a.2.1) := by
  unfold extractModel
  exact List.Pairwise.sublist (List.take_sublist _ _)
    (pairwise_sortD (fun m : String × ℚ × Nat => m.2.1) _)

theorem mem_extractModel {scorer : String → String → ℚ} {q : String}
    {choices : List String} {limit : Nat} {m : String × ℚ × Nat}
    (h : m ∈ extractModel scorer q choices limit) :
    m.2.2 < choices.length ∧ choices.getD m.2.2 "" = m.1 ∧
      m.2.1 = scorer q m.1 := by
  unfold extractModel at h
  have h1 := List.mem_of_mem_take h
  rw [mem_sortD] at h1
  obtain ⟨p, hp, rfl⟩ := List.mem_map.1 h1
  have h2 := List.mem_enum_iff_getElem?.1 hp
  obtain ⟨hlt, hget⟩ := List.getElem?_eq_some_iff.1 h2
  refine ⟨hlt, ?_, rfl⟩
  rw [List.getD_eq_getElem?_getD, h2]
  rfl

theorem extractModel_of_small {scorer : String → String → ℚ} {q : String}
    {choices : List String} {limit : Nat} (h : choices.length ≤ limit) :
    extractModel scorer q choices limit =
      sortD (fun m : String × ℚ × Nat => m.2.1)
        (List.map (fun p => (p.2, scorer q p.2, p.1)) choices.enum) := by
  unfold extractModel
  apply List.take_of_length_le
  rw [length_sortD, List.length_map, List.enum_length]
  exact h

theorem length_extractModel_le (scorer : String → String → ℚ) (q : String)
    (choices : List String) (limit : Nat) :
    (extractModel scorer q choices limit).length ≤ limit := by
  unfold extractModel
  rw [List.length_take]
  exact Nat.min_le_left _ _

theorem selectMatch_eq_some {items : List (String × Entry)} {query : String}
    {threshold : ℚ} {m : String × ℚ × Nat} {e : Entry} :
    selectMatch items query threshold m = some e ↔
      ((threshold ≤ m.2.1 ∨
          (containsCI query m.1 = true ∧ (60 : ℚ) ≤ m.2.1)) ∧
        e = withScore (items.getD m.2.2 ("", [])).2 m.2.1) := by
  unfold selectMatch
  split_ifs with h1 h2
  · simp only [Option.some_inj]
    constructor
    · exact fun he => ⟨Or.inl h1, he.symm⟩
    · exact fun h => h.2.symm
  · rw [Bool.and_eq_true, decide_eq_true_iff] at h2
    simp only [Option.some_inj]
    constructor
    · exact fun he => ⟨Or.inr h2, he.symm⟩
    · exact fun h => h.2.symm
  · rw [Bool.and_eq_true, decide_eq_true_iff] at h2
    constructor
    · intro he
      exact he.elim
    · rintro ⟨hc | hc, _⟩
      · exact absurd hc h1
      · exact absurd hc h2

theorem entryScore_selectMatch {items : List (String × Entry)}
    {query : String} {threshold : ℚ} {m : String × ℚ × Nat} {e : Entry}
    (h : selectMatch items query threshold m = some e) :
    entryScore e = m.2.1 := by
  rcases selectMatch_eq_some.1 h with ⟨_, rfl⟩
  exact entryScore_withScore _ _

theorem pairwise_searchCandidates (scorer : String → String → ℚ)
    (data : List Entry) (query : String) (threshold : ℚ) (limit : Nat) :
    (searchCandidates scorer data query threshold limit).Pairwise
      (fun a b => entryScore b ≤ entryScore a) := by
  unfold searchCandidates
  rw [List.pairwise_filterMap]
  apply (pairwise_extractModel scorer query _ limit).imp
  intro a b hab x hx y hy
  rw [entryScore_selectMatch hx, entryScore_selectMatch hy]
  exact hab

theorem length_searchCandidates_le (scorer : String → String → ℚ)
    (data : List Entry) (query : String) (threshold : ℚ) (limit : Nat) :
    (searchCandidates scorer data query threshold limit).length ≤ limit := by
  unfold searchCandidates
  exact le_trans (List.length_filterMap_le _ _)
    (length_extractModel_le scorer query _ limit)

theorem mem_searchCandidates {scorer : String → String → ℚ}
    {data : List Entry} {query : String} {threshold : ℚ} {limit : Nat}
    {e : Entry} :
    e ∈ searchCandidates scorer data query threshold limit ↔
      ∃ m ∈ extractModel scorer query
          (List.map (fun p => p.1) (searchableItems data)) limit,
        selectMatch (searchableItems data) query threshold m = some e := by
  unfold searchCandidates
  exact List.mem_filterMap

theorem searchPure_eq_take {scorer : String → String → ℚ}
    {data : List Entry} {query : String} {threshold : ℚ} {limit : Nat}
    (hd : data ≠ []) (hq : query ≠ "") :
    searchPure scorer data query threshold limit =
      (searchCandidates scorer data query threshold limit).take limit := by
  unfold searchPure
  rw [if_neg (by simpa using hd), if_neg hq,
    sortD_of_pairwise (pairwise_searchCandidates scorer data query threshold limit)]

theorem choices_eq_map_searchStr (data : List Entry) :
    List.map (fun p => p.1) (searchableItems data) =
      List.map searchStr data := by
  unfold searchableItems
  rw [List.map_map]
  rfl

theorem searchableItems_getD {data : List Entry} {i : Nat}
    (h : i < data.length) :
    (searchableItems data).getD i ("", []) =
      (searchStr (data.get ⟨i, h⟩), data.get ⟨i, h⟩) := by
  unfold searchableItems
  have h2 : i < (List.map (fun item => (searchStr item, item)) data).length := by
    simpa using h
  rw [List.getD_eq_getElem _ _ h2, List.getElem_map]
  simp

theorem mem_searchPure_exists_item {scorer : String → String → ℚ}
    {data : List Entry} {query : String} {threshold : ℚ} {limit : Nat}
    {e : Entry} (he : e ∈ searchPure scorer data query threshold limit) :
    ∃ item ∈ data, e = withScore item (scorer query (searchStr item)) := by
  by_cases hd : data = []
  · subst hd
    simp [searchPure] at he
  · by_cases hq : query = ""
    · unfold searchPure at he
      rw [if_neg (by simpa using hd), if_pos hq] at he
      exact absurd he (List.not_mem_nil e)
    · rw [searchPure_eq_take hd hq] at he
      have he2 := List.mem_of_mem_take he
      rw [mem_searchCandidates] at he2
      obtain ⟨m, hm, hsel⟩ := he2
      obtain ⟨hcond, rfl⟩ := selectMatch_eq_some.1 hsel
      obtain ⟨hlt, hgetd, hscore⟩ := mem_extractModel hm
      rw [choices_eq_map_searchStr] at hlt hgetd
      rw [List.length_map] at hlt
      rw [List.getD_eq_getElem _ _ (by simpa using hlt), List.getElem_map]
        at hgetd
      refine ⟨data.get ⟨m.2.2, hlt⟩, List.get_mem data m.2.2 hlt, ?_⟩
      rw [searchableItems_getD hlt, hscore, ← hgetd]
      simp

/-! ### Claim theorems -/

/-- C1: the authentication middleware actually wired into the app
(`mcp_auth_middleware`, main.py) violates the documented denial contract:
on the protected path with an allow-list configured and no credential
presented, it answers HTTP 401 with a WWW-Authenticate challenge header,
instead of the required 403-class denial carrying no challenge header —
that required behavior is implemented by the unwired
`MCPAuthMiddleware_dispatch` (auth_middleware.py), shown in the second
conjunct. -/
theorem wired_gate_401_challenge_on_missing_key :
    mcp_auth_middleware "secret-key" reqNoKey =
      GateOutcome.denied 401 "Invalid or missing API key"
        [("WWW-Authenticate", "X-API-Key")] ∧
    MCPAuthMiddleware_dispatch "secret-key" reqNoKey =
      GateOutcome.denied 403 "API key required for MCP access" [] :=
  ⟨by decide, by decide⟩

/-- C2: with no allow-list configured (empty credential environment value),
the wired middleware still denies a protected-path request carrying no
credential header (HTTP 401 with a challenge header), so the protected
surface is not reachable without a credential; the unwired
`MCPAuthMiddleware_dispatch` implements the claimed passthrough. -/
theorem wired_gate_denies_without_allowlist :
    mcp_auth_middleware "" reqNoKey =
      GateOutcome.denied 401 "Invalid or missing API key"
        [("WWW-Authenticate", "X-API-Key")] ∧
    MCPAuthMiddleware_dispatch "" reqNoKey = GateOutcome.forwarded :=
  ⟨by decide, by decide⟩

/-- C5: reload is a no-op while the file keeps the modification timestamp
recorded by the store — mutated content under an unchanged timestamp is
never observed (the state, entries included, is returned unchanged) — and
reloading twice against the same filesystem state gives the same result as
reloading once. -/
theorem load_data_freshness_idempotent :
    (∀ (s : ServiceState) (m : ℚ) (c : FileContent),
        s.last_mtime = some m → load_data s (some (m, c)) = s) ∧
    (∀ (s : ServiceState) (fs : FS),
        load_data (load_data s fs) fs = load_data s fs) := by
  constructor
  · intro s m c h
    simp only [load_data]
    rw [if_pos h]
  · intro s fs
    match fs with
    | none => rfl
    | some (m, c) =>
      by_cases h : s.last_mtime = some m
      · have h1 : load_data s (some (m, c)) = s := by
          simp only [load_data]
          rw [if_pos h]
        rw [h1, h1]
      · cases c with
        | jdictAcronyms l =>
          have h1 : load_data s (some (m, FileContent.jdictAcronyms l)) =
              ⟨l, some m⟩ := by
            simp only [load_data]
            rw [if_neg h]
          rw [h1]
          simp only [load_data]
          simp
        | jlist l =>
          have h1 : load_data s (some (m, FileContent.jlist l)) =
              ⟨l, some m⟩ := by
            simp only [load_data]
            rw [if_neg h]
          rw [h1]
          simp only [load_data]
          simp
        | jother =>
          have h1 : load_data s (some (m, FileContent.jother)) =
              ⟨[], some m⟩ := by
            simp only [load_data]
            rw [if_neg h]
          rw [h1]
          simp only [load_data]
          simp
        | malformed =>
          have h1 : load_data s (some (m, FileContent.malformed)) =
              { s with data := [] } := by
            simp only [load_data]
            rw [if_neg h]
          rw [h1]
          simp only [load_data]
          rw [if_neg h]

/-- Witness for the C5 theorem: a store that has loaded at timestamp 5 is
returned unchanged when the file still carries timestamp 5, for any
content. -/
theorem load_data_freshness_idempotent_witness :
    load_data ⟨[entryA], some 5⟩ (some (5, FileContent.jlist [entryB])) =
      ⟨[entryA], some 5⟩ :=
  load_data_freshness_idempotent.1 ⟨[entryA], some 5⟩ 5
    (FileContent.jlist [entryB]) rfl

/-- C6: a failed load leaves the collection empty: a missing file clears the
data, and — when the timestamp check does not short-circuit — malformed
content and valid JSON of the wrong shape both clear the data.  The
exception handlers embedded in `load_data` make it a total function, so no
data-source error reaches the caller. -/
theorem load_data_failure_empty (s : ServiceState) (m : ℚ) :
    ((load_data s none).data = []) ∧
    (s.last_mtime ≠ some m →
      (load_data s (some (m, FileContent.malformed))).data = [] ∧
      (load_data s (some (m, FileContent.jother))).data = []) := by
  refine ⟨rfl, fun h => ⟨?_, ?_⟩⟩
  · simp only [load_data]
    rw [if_neg h]
  · simp only [load_data]
    rw [if_neg h]

/-- Witness for the C6 theorem: a store last loaded at timestamp 5 sees the
file malformed at timestamp 7 and ends with an empty collection. -/
theorem load_data_failure_empty_witness :
    (load_data ⟨[entryA], some 5⟩ (some (7, FileContent.malformed))).data =
      [] :=
  ((load_data_failure_empty ⟨[entryA], some 5⟩ 7).2 (by decide)).1

/-- C7: search returns the empty list whenever the query is empty or the
post-reload collection is empty; the embedded `searchFull` is a total
function, so no input makes search raise. -/
theorem search_empty_guards (s : ServiceState) (fs : FS)
    (scorer : String → String → ℚ) (query : String) (threshold : ℚ)
    (limit : Nat) :
    (query = "" → (searchFull s fs scorer query threshold limit).1 = []) ∧
    ((load_data s fs).data = [] →
      (searchFull s fs scorer query threshold limit).1 = []) := by
  constructor
  · intro h
    unfold searchFull searchPure
    simp [h]
  · intro h
    unfold searchFull searchPure
    simp [h]

/-- Witness for the C7 theorem: an empty query against a loaded store yields
no results. -/
theorem search_empty_guards_witness :
    (searchFull ⟨[], none⟩ (some (1, FileContent.jlist [entryA])) scorer75
      "" 80 10).1 = [] :=
  (search_empty_guards ⟨[], none⟩ (some (1, FileContent.jlist [entryA]))
    scorer75 "" 80 10).1 rfl

/-- C8: a protocol request whose method is not one of the recognized methods
(initialize, initialized, notifications/initialized, tools/list, tools/call,
ping — including an absent method) is answered with the structured JSON-RPC
method-not-found error: numeric code -32601 and the echoed request id. -/
theorem mcp_endpoint_method_not_found (st : ServiceState) (fs : FS)
    (scorer : String → String → ℚ) (body : MCPBody)
    (h : body.method ∉ ([some "initialize", some "initialized",
      some "notifications/initialized", some "tools/list", some "tools/call",
      some "ping"] : List (Option String))) :
    mcp_endpoint st fs scorer body =
      MCPResponse.rpcError (-32601)
        ("Method not found: " ++ methodText body.method) body.id := by
  simp only [List.mem_cons, List.not_mem_nil, or_false] at h
  push_neg at h
  obtain ⟨h1, h2, h3, h4, h5, h6⟩ := h
  unfold mcp_endpoint
  rw [if_neg h1, if_neg (by tauto), if_neg h4, if_neg h5, if_neg h6]

/-- Witness for the C8 theorem: the method "bogus" with request id 7 gets a
-32601 error echoing id 7. -/
theorem mcp_endpoint_method_not_found_witness :
    mcp_endpoint ⟨[], none⟩ none scorer75
        ⟨some "bogus", none, none, none, some (JVal.n 7)⟩ =
      MCPResponse.rpcError (-32601)
        ("Method not found: " ++ methodText (some "bogus"))
        (some (JVal.n 7)) :=
  mcp_endpoint_method_not_found ⟨[], none⟩ none scorer75
    ⟨some "bogus", none, none, none, some (JVal.n 7)⟩ (by decide)

/-- C9: the wired middleware forwards any protected-path request whose
parsed body is a tools/call of get_health, performing no credential
validation: the outcome is forwarded for every allow-list configuration and
every header list, so the response cannot depend on the credential
header. -/
theorem health_bypass_forwards (glossaryApiKeys : String)
    (req : HttpRequest) (b : MCPBody)
    (hpath : startsWithMCP req.path = true)
    (hbody : req.parsedBody = some b) (hm : b.method = some "tools/call")
    (hn : b.paramsName = some "get_health") :
    mcp_auth_middleware glossaryApiKeys req = GateOutcome.forwarded := by
  unfold mcp_auth_middleware
  simp [hpath, hbody, hm, hn]

/-- Witness for the C9 theorem: a get_health tool call with no credential
header is forwarded even though an allow-list is configured. -/
theorem health_bypass_forwards_witness :
    mcp_auth_middleware "secret-key" reqHealthCall =
      GateOutcome.forwarded :=
  health_bypass_forwards "secret-key" reqHealthCall bodyHealthCall
    (by decide) rfl rfl rfl

/-- C10: search and get_all do not mutate the store beyond the reload step:
the post-call state is exactly the reloaded state, get_all returns exactly
the stored entries, and every search result is a copy of some stored entry
with the score attached — the stored entries themselves are returned
unchanged. -/
theorem search_get_all_frame (s : ServiceState) (fs : FS)
    (scorer : String → String → ℚ) (query : String) (threshold : ℚ)
    (limit : Nat) :
    ((searchFull s fs scorer query threshold limit).2 = load_data s fs) ∧
    ((get_all s fs).2 = load_data s fs) ∧
    ((get_all s fs).1 = (load_data s fs).data) ∧
    (∀ e ∈ (searchFull s fs scorer query threshold limit).1,
      ∃ item ∈ (load_data s fs).data,
        e = withScore item (scorer query (searchStr item))) := by
  refine ⟨rfl, rfl, rfl, ?_⟩
  intro e he
  exact mem_searchPure_exists_item he

/-- Witness for the C10 theorem: the single result of a concrete search is a
score-injected copy of a stored entry. -/
theorem search_get_all_frame_witness :
    ∃ item ∈ (load_data ⟨[], none⟩
        (some (1, FileContent.jlist [entryA]))).data,
      withScore entryA 75 = withScore item (scorer75 "a" (searchStr item)) :=
  (search_get_all_frame ⟨[], none⟩ (some (1, FileContent.jlist [entryA]))
    scorer75 "a" 80 10).2.2.2 (withScore entryA 75) (by decide)

/-- C3: for a non-empty query, any scorer within the documented 0-100 range,
any threshold in [0,100] and any positive limit, search returns at most
limit results, each carrying an injected score field in [0,100], sorted
descending by score; the output is a sublist of the candidate list, which
is in extraction order, so ties keep the scorer's original relative order
(the final sort is stable). -/
theorem search_sorted_bounded_stable (scorer : String → String → ℚ)
    (data : List Entry) (query : String) (threshold : ℚ) (limit : Nat)
    (hs : ∀ q c, 0 ≤ scorer q c ∧ scorer q c ≤ 100) (hq : query ≠ "")
    (ht0 : 0 ≤ threshold) (ht1 : threshold ≤ 100) (hl : 0 < limit) :
    (searchPure scorer data query threshold limit).length ≤ limit ∧
    (∀ e ∈ searchPure scorer data query threshold limit,
      ∃ sc, dictGet e "score" = some (JVal.n sc) ∧ 0 ≤ sc ∧ sc ≤ 100) ∧
    (searchPure scorer data query threshold limit).Pairwise
      (fun a b => entryScore b ≤ entryScore a) ∧
    (searchPure scorer data query threshold limit).Sublist
      (searchCandidates scorer data query threshold limit) := by
  by_cases hd : data = []
  · subst hd
    refine ⟨?_, ?_, ?_, ?_⟩ <;> simp [searchPure]
  · rw [searchPure_eq_take hd hq]
    refine ⟨?_, ?_, ?_, List.take_sublist _ _⟩
    · rw [List.length_take]
      exact Nat.min_le_left _ _
    · intro e he
      have he2 := List.mem_of_mem_take he
      rw [mem_searchCandidates] at he2
      obtain ⟨m, hm, hsel⟩ := he2
      obtain ⟨hcond, rfl⟩ := selectMatch_eq_some.1 hsel
      obtain ⟨_, _, hscore⟩ := mem_extractModel hm
      refine ⟨m.2.1, dictGet_score_withScore _ _, ?_, ?_⟩
      · rw [hscore]
        exact (hs query m.1).1
      · rw [hscore]
        exact (hs query m.1).2
    · exact List.Pairwise.sublist (List.take_sublist _ _)
        (pairwise_searchCandidates scorer data query threshold limit)

/-- Witness for the C3 theorem at a concrete scorer, store and query. -/
theorem search_sorted_bounded_stable_witness :
    (searchPure scorer75 [entryA] "a" 70 2).length ≤ 2 ∧
    (∀ e ∈ searchPure scorer75 [entryA] "a" 70 2,
      ∃ sc, dictGet e "score" = some (JVal.n sc) ∧ 0 ≤ sc ∧ sc ≤ 100) ∧
    (searchPure scorer75 [entryA] "a" 70 2).Pairwise
      (fun a b => entryScore b ≤ entryScore a) ∧
    (searchPure scorer75 [entryA] "a" 70 2).Sublist
      (searchCandidates scorer75 [entryA] "a" 70 2) :=
  search_sorted_bounded_stable scorer75 [entryA] "a" 70 2
    (fun _ _ => ⟨by norm_num [scorer75], by norm_num [scorer75]⟩)
    (by decide) (by norm_num) (by norm_num) (by norm_num)

/-- C4 counterexample: with two entries and limit 1, the extraction
truncates to the single best-scoring entry before the selection rules run,
so the lower-scoring entry that the union rule selects (its searchable
string contains the query and it scores 65 ≥ 60) is lost: the code returns
no candidate although the specification-side union selection returns one,
and the output is not the union even though fewer than limit results were
produced. -/
theorem search_union_counterexample :
    searchPure scorerCx [entryA, entryB] "bet" 80 1 = [] ∧
    specSearch scorerCx [entryA, entryB] "bet" 80 1 =
      [withScore entryB 65] :=
  ⟨by decide, by decide⟩

/-- C4 (amended): search scores every entry's searchable string, and —
provided the collection holds at most `limit` entries, so that the
extraction step's pre-selection truncation keeps every scored entry — the
selected candidates are exactly the union of the two rules: a result is a
member of the output precisely when it is a score-injected copy of an entry
that scores at least `threshold`, or whose searchable string
case-insensitively contains the query and scores at least 60.  In general
the union is restricted to the `limit` best-scoring entries. -/
theorem search_mem_union_of_small (scorer : String → String → ℚ)
    (data : List Entry) (query : String) (threshold : ℚ) (limit : Nat)
    (hq : query ≠ "") (hd : data.length ≤ limit) :
    ∀ e, e ∈ searchPure scorer data query threshold limit ↔
      ∃ item ∈ data,
        (threshold ≤ scorer query (searchStr item) ∨
          (containsCI query (searchStr item) = true ∧
            (60 : ℚ) ≤ scorer query (searchStr item))) ∧
        e = withScore item (scorer query (searchStr item)) := by
  intro e
  by_cases hdata : data = []
  · subst hdata
    simp [searchPure]
  · rw [searchPure_eq_take hdata hq,
      List.take_of_length_le
        (length_searchCandidates_le scorer data query threshold limit),
      mem_searchCandidates]
    have hch : (List.map (fun p => p.1) (searchableItems data)).length =
        data.length := by
      rw [choices_eq_map_searchStr, List.length_map]
    have hextract := @extractModel_of_small scorer query
      (List.map (fun p => p.1) (searchableItems data)) limit
      (by rw [hch]; exact hd)
    constructor
    · rintro ⟨m, hm, hsel⟩
      rw [hextract, mem_sortD] at hm
      obtain ⟨p, hp, rfl⟩ := List.mem_map.1 hm
      have h2 := List.mem_enum_iff_getElem?.1 hp
      rw [choices_eq_map_searchStr] at h2
      obtain ⟨hlt, hget⟩ := List.getElem?_eq_some_iff.1 h2
      rw [List.length_map] at hlt
      rw [List.getElem_map] at hget
      obtain ⟨hcond, rfl⟩ := selectMatch_eq_some.1 hsel
      refine ⟨data.get ⟨p.1, hlt⟩, List.get_mem data p.1 hlt, ?_, ?_⟩
      · simp only [List.get_eq_getElem, hget]
        simpa using hcond
      · rw [searchableItems_getD hlt]
        simp only [List.get_eq_getElem, hget]
    · rintro ⟨item, hitem, hcond, rfl⟩
      obtain ⟨i, hi, rfl⟩ := List.mem_iff_getElem.1 hitem
      refine ⟨(searchStr (data.get ⟨i, hi⟩),
        scorer query (searchStr (data.get ⟨i, hi⟩)), i), ?_, ?_⟩
      · rw [hextract, mem_sortD]
        apply List.mem_map.2
        refine ⟨(i, searchStr (data.get ⟨i, hi⟩)), ?_, rfl⟩
        rw [List.mem_enum_iff_getElem?, choices_eq_map_searchStr,
          List.getElem?_map]
        simp [List.getElem?_eq_some_iff, hi]
      · rw [selectMatch_eq_some]
        refine ⟨?_, ?_⟩
        · simpa using hcond
        · rw [searchableItems_getD hi]
          simp

/-- Witness for the amended C4 theorem at a concrete scorer, store, query
and result. -/
theorem search_mem_union_of_small_witness :
    withScore entryB 65 ∈ searchPure scorerCx [entryA, entryB] "bet" 80 2 ↔
      ∃ item ∈ [entryA, entryB],
        ((80 : ℚ) ≤ scorerCx "bet" (searchStr item) ∨
          (containsCI "bet" (searchStr item) = true ∧
            (60 : ℚ) ≤ scorerCx "bet" (searchStr item))) ∧
        withScore entryB 65 =
          withScore item (scorerCx "bet" (searchStr item)) :=
  search_mem_union_of_small scorerCx [entryA, entryB] "bet" 80 2
    (by decide) (by decide) (withScore entryB 65)

end Acronyms
